import Mathlib

/-!
Verification of the metabolic exchange network construction and filtering
engine (`generate_bipartite_graph`, `plot_trophic_interactions`, and the
node-link serialization) of `plot_interactions.py`.

The embedding is executable: string processing is modelled on `List Char`
with structural recursion, flux values are exact rationals built with
`mkRat` (the source stores `abs(float(...))`; we idealize binary floating
point by exact rational arithmetic), and the networkx `DiGraph` is an
insertion-ordered association list of nodes – each node carrying its
optional `bipartite` attribute – together with an insertion-ordered,
duplicate-free list of directed edges.
-/

namespace CgemForge

/-! ## String scanning utilities (structural, so that the kernel can
evaluate them on concrete inputs) -/

/-- Split a character list at every tab, mirroring `line.split("\t")`. -/
def splitTab : List Char → List (List Char)
  | [] => [[]]
  | c :: cs =>
    match splitTab cs with
    | [] => [[]]
    | f :: rest => if c = '\t' then [] :: f :: rest else (c :: f) :: rest

/-- Drop leading and trailing whitespace, mirroring `line.strip()`. -/
def stripWs (l : List Char) : List Char :=
  ((l.dropWhile Char.isWhitespace).reverse.dropWhile Char.isWhitespace).reverse

/-- Remove every occurrence of the species marker, mirroring
`taxon.replace("_sp", "")` (left-to-right, non-overlapping). -/
def stripSp : List Char → List Char
  | '_' :: 's' :: 'p' :: rest => stripSp rest
  | c :: rest => c :: stripSp rest
  | [] => []

/-- Remove every occurrence of the compartment marker, mirroring
`metabolite.replace("_e", "")`. -/
def stripE : List Char → List Char
  | '_' :: 'e' :: rest => stripE rest
  | c :: rest => c :: stripE rest
  | [] => []

/-- The literal column name used to recognize (and skip) lines, the
five characters of the word scanned for by `if "taxon" in line`. -/
def taxonPat : List Char := ['t', 'a', 'x', 'o', 'n']

/-- Predicate `hasTaxon cs` holds exactly when the pattern `taxonPat` occurs as a
contiguous substring, mirroring Python's `"taxon" in line`. -/
def hasTaxon : List Char → Bool
  | [] => false
  | c :: cs => taxonPat.isPrefixOf (c :: cs) || hasTaxon cs

/-- Split at the first character satisfying `p`; the second component is
`none` when no such character occurs. -/
def splitFirstBy (p : Char → Bool) : List Char → List Char × Option (List Char)
  | [] => ([], none)
  | c :: cs =>
    if p c then ([], some cs)
    else
      match splitFirstBy p cs with
      | (l, r) => (c :: l, r)

/-! ## Numeric literal parsing, modelling Python `float(...)` on decimal
and scientific notation (exact rational semantics) -/

/-- Numeric value of a digit string (no validity check). -/
def digitsVal (cs : List Char) : Nat :=
  cs.foldl (fun a c => 10 * a + (c.toNat - 48)) 0

/-- Value of a nonempty all-digit string, `none` otherwise. -/
def digitsVal? (cs : List Char) : Option Nat :=
  if cs ≠ [] ∧ cs.all Char.isDigit then some (digitsVal cs) else none

/-- Mantissa `dd`, `dd.dd`, `dd.`, `.dd` as a pair of integer numerator
and number of fractional digits. -/
def mantissaVal? (cs : List Char) : Option (Int × Nat) :=
  match splitFirstBy (fun c => c = '.') cs with
  | (ip, none) => (digitsVal? ip).map (fun n => ((n : Int), 0))
  | (ip, some fp) =>
    if (ip ≠ [] ∨ fp ≠ []) ∧ ip.all Char.isDigit ∧ fp.all Char.isDigit then
      some (((digitsVal ip) * 10 ^ fp.length + digitsVal fp : Int), fp.length)
    else none

/-- Strip one optional leading sign, returning the sign as `1` or `-1`. -/
def takeSign : List Char → Int × List Char
  | '-' :: rest => (-1, rest)
  | '+' :: rest => (1, rest)
  | cs => (1, cs)

/-- Function `parseFloat? s` models `float(s)`: optional sign, decimal mantissa,
optional exponent part, surrounding whitespace ignored; `none` when the
literal is not numeric. -/
def parseFloat? (s : String) : Option ℚ :=
  let cs := stripWs s.data
  let sc := takeSign cs
  match splitFirstBy (fun c => c = 'e' ∨ c = 'E') sc.2 with
  | (mant, eo) =>
    match mantissaVal? mant with
    | none => none
    | some nk =>
      match eo with
      | none => some (mkRat (sc.1 * nk.1) (10 ^ nk.2))
      | some ecs =>
        let esc := takeSign ecs
        match digitsVal? esc.2 with
        | none => none
        | some e =>
          if esc.1 = 1 then some (mkRat (sc.1 * nk.1 * 10 ^ e) (10 ^ nk.2))
          else some (mkRat (sc.1 * nk.1) (10 ^ (nk.2 + e)))

/-- Absolute value of a rational, written with `mkRat` so that it
evaluates by kernel reduction; models Python `abs(...)`. -/
def ratAbs (q : ℚ) : ℚ := mkRat q.num.natAbs q.den

/-! ## Exchange record parser -/

instance {ε α : Type} [DecidableEq ε] [DecidableEq α] : DecidableEq (Except ε α) :=
  fun x y =>
    match x, y with
    | .ok a, .ok b =>
      if h : a = b then .isTrue (congrArg Except.ok h)
      else .isFalse (fun hh => h (Except.ok.inj hh))
    | .error a, .error b =>
      if h : a = b then .isTrue (congrArg Except.error h)
      else .isFalse (fun hh => h (Except.error.inj hh))
    | .ok _, .error _ => .isFalse (fun hh => Except.noConfusion hh)
    | .error _, .ok _ => .isFalse (fun hh => Except.noConfusion hh)

/-- One normalized interaction record, as accumulated by the reading
loop of `generate_bipartite_graph`. -/
structure InteractionRecord where
  taxon : String
  metabolite : String
  direction : String
  flux : ℚ
deriving DecidableEq, Repr

/-- Fallback record used for positional access with a default. -/
def defaultRecord : InteractionRecord :=
  { taxon := String.mk [], metabolite := String.mk [],
    direction := String.mk [], flux := 0 }

instance : Inhabited InteractionRecord := ⟨defaultRecord⟩

/-- Errors raised by the per-row extraction: a row with fewer fields
than the accessed column positions (Python `IndexError`) or a flux field
that is not numeric (Python `ValueError`). -/
inductive RowError where
  | tooFewFields : RowError
  | fluxNotNumeric : RowError
deriving DecidableEq, Repr

/-- Optional relabeling lookup, mirroring
`if relabel_nodes is not None and metabolite in relabel_nodes`. -/
def relabelApply (relabel : Option (List (String × String))) (m : String) : String :=
  match relabel with
  | none => m
  | some tbl =>
    match tbl.find? (fun p => p.1 == m) with
    | some p => p.2
    | none => m

/-- Direction literal compared against column 8. -/
def exportLit : String := "export"

/-- Direction literal compared against column 8. -/
def importLit : String := "import"

/-- Extraction of one data row, mirroring the loop body: strip the line,
split on tabs, read `cols[1]` (taxon, `_sp` stripped), `cols[7]`
(metabolite, `_e` stripped, optionally relabelled), `cols[8]`
(direction) and `abs(float(cols[5]))`, in source order. -/
def parseRow (relabel : Option (List (String × String))) (line : String) :
    Except RowError InteractionRecord :=
  let cols := splitTab (stripWs line.data)
  match cols.get? 1 with
  | none => .error .tooFewFields
  | some c1 =>
    let taxon := String.mk (stripSp c1)
    match cols.get? 7 with
    | none => .error .tooFewFields
    | some c7 =>
      let metabolite := relabelApply relabel (String.mk (stripE c7))
      match cols.get? 8 with
      | none => .error .tooFewFields
      | some c8 =>
        match cols.get? 5 with
        | none => .error .tooFewFields
        | some c5 =>
          match parseFloat? (String.mk c5) with
          | none => .error .fluxNotNumeric
          | some q =>
            .ok { taxon := taxon, metabolite := metabolite,
                  direction := String.mk c8, flux := ratAbs q }

/-- Evaluates to `true` exactly on rows the reading loop turns into a record. -/
def rowOk {ε α : Type} : Except ε α → Bool
  | .ok _ => true
  | .error _ => false

/-- The reading loop over the lines of the exchange file: every line
containing the substring `"taxon"` is skipped (`continue`); any
extraction failure aborts the whole loop, as the source has no handler
around the row accesses. -/
def parseTable (relabel : Option (List (String × String))) :
    List String → Except RowError (List InteractionRecord)
  | [] => .ok []
  | line :: rest =>
    if hasTaxon line.data then parseTable relabel rest
    else
      match parseRow relabel line with
      | .error e => .error e
      | .ok r =>
        match parseTable relabel rest with
        | .error e => .error e
        | .ok rs => .ok (r :: rs)

/-- Record produced by one line under the actual loop semantics: `none`
for a line containing `"taxon"`, otherwise the parsed record. -/
def rowFate (relabel : Option (List (String × String))) (line : String) :
    Option InteractionRecord :=
  if hasTaxon line.data then none else (parseRow relabel line).toOption

/-! ## Flux filter -/

/-- Descending comparison key of the sort
`all_interactions.sort(key=lambda x: x["flux"], reverse=True)`:
`fluxGe a b` says `a` may precede `b`. -/
def fluxGe (a b : InteractionRecord) : Prop := b.flux ≤ a.flux

instance : DecidableRel fluxGe :=
  fun a b => inferInstanceAs (Decidable (b.flux ≤ a.flux))

instance : IsTotal InteractionRecord fluxGe :=
  ⟨fun a b => le_total b.flux a.flux⟩

instance : IsTrans InteractionRecord fluxGe :=
  ⟨fun _ _ _ h1 h2 => le_trans h2 h1⟩

/-- Stable descending sort by flux magnitude (Python's list sort is a
stable sort; insertion sort with `fluxGe` computes the same list). -/
def sortByFluxDesc (l : List InteractionRecord) : List InteractionRecord :=
  l.insertionSort fluxGe

/-- The flux-cutoff configuration: a numeric floor or a percentile
keyword string. -/
inductive FluxCutoff where
  | num : ℚ → FluxCutoff
  | pct : String → FluxCutoff
deriving DecidableEq, Repr

/-- Failures of the filter stage: an unrecognized keyword (the
`ValueError` of the source) or Python's `IndexError` raised by
`all_interactions[cutoff_idx - 1]` on an empty interaction list. -/
inductive CutoffError where
  | invalidCutoff : CutoffError
  | emptyIndex : CutoffError
deriving DecidableEq, Repr

/-- Percentile keyword compared against the cutoff string. -/
def top20Lit : String := "top20"

/-- Percentile keyword compared against the cutoff string. -/
def top10Lit : String := "top10"

/-- The flux-cutoff stage over the already sorted interaction list.
For a keyword, `percentage` is `0.2` or `0.5`⁻¹-free: the source index
`int(len(all_interactions) * percentage)` equals the exact natural
division `length / 5` (resp. `length / 10`), which is how it is written
here; the flux at rank `cutoff_idx - 1` is kept as an inclusive floor. -/
def applyFluxCutoff (cutoff : Option FluxCutoff) (sorted : List InteractionRecord) :
    Except CutoffError (List InteractionRecord) :=
  match cutoff with
  | none => .ok sorted
  | some (.num c) => .ok (sorted.filter (fun r => c ≤ r.flux))
  | some (.pct s) =>
    if s = top20Lit ∨ s = top10Lit then
      let den : Nat := if s = top20Lit then 5 else 10
      let cutoffIdx := max 1 (sorted.length / den)
      match sorted.get? (cutoffIdx - 1) with
      | none => .error .emptyIndex
      | some r => .ok (sorted.filter (fun x => r.flux ≤ x.flux))
    else .error .invalidCutoff

/-! ## The graph model

A networkx `DiGraph` restricted to what the source uses: nodes in
insertion order, each with an optional `bipartite` attribute (`add_edge`
introduces endpoints without the attribute), and directed edges in
insertion order without duplicates. -/

/-- Directed graph with optional `bipartite` node attribute. -/
structure Graph where
  nodes : List (String × Option Nat)
  edges : List (String × String)
deriving DecidableEq, Repr

/-- The node identifiers, in insertion order. -/
def Graph.nodeKeys (G : Graph) : List String := G.nodes.map Prod.fst

/-- First-match association lookup of a node's attribute entry. -/
def lookupAttr : List (String × Option Nat) → String → Option Nat
  | [], _ => none
  | p :: rest, x => if p.1 = x then p.2 else lookupAttr rest x

/-- The `bipartite` attribute of a node: `none` when the node is absent
or carries no attribute. -/
def Graph.attr (G : Graph) (n : String) : Option Nat :=
  lookupAttr G.nodes n

/-- Models `G.add_node(n, bipartite=b)`: inserts the node or overwrites the
attribute of an existing node. -/
def Graph.addNode (G : Graph) (n : String) (b : Nat) : Graph :=
  if n ∈ G.nodeKeys then
    ⟨G.nodes.map (fun p => if p.1 == n then (n, some b) else p), G.edges⟩
  else ⟨G.nodes ++ [(n, some b)], G.edges⟩

/-- Implicit node insertion performed by `add_edge` for a missing
endpoint: the node is created without attributes. -/
def Graph.addBare (G : Graph) (n : String) : Graph :=
  if n ∈ G.nodeKeys then G else ⟨G.nodes ++ [(n, none)], G.edges⟩

/-- Models `G.add_edge(u, v)`: endpoints are created if missing, a repeated
edge is a no-op. -/
def Graph.addEdge (G : Graph) (u v : String) : Graph :=
  let G2 := (G.addBare u).addBare v
  if (u, v) ∈ G2.edges then G2 else ⟨G2.nodes, G2.edges ++ [(u, v)]⟩

/-- Models `G.has_edge(u, v)`. -/
def Graph.hasEdge (G : Graph) (u v : String) : Prop := (u, v) ∈ G.edges

instance (G : Graph) (u v : String) : Decidable (G.hasEdge u v) :=
  inferInstanceAs (Decidable ((u, v) ∈ G.edges))

/-- Models `G.remove_node(n)`: drops the node and every incident edge. -/
def Graph.removeNode (G : Graph) (n : String) : Graph :=
  ⟨G.nodes.filter (fun p => p.1 ≠ n),
   G.edges.filter (fun e => e.1 ≠ n ∧ e.2 ≠ n)⟩

/-- Models `G.remove_nodes_from(l)`: missing entries are ignored, every listed
node and its incident edges disappear. -/
def Graph.removeNodes (G : Graph) (l : List String) : Graph :=
  ⟨G.nodes.filter (fun p => p.1 ∉ l),
   G.edges.filter (fun e => e.1 ∉ l ∧ e.2 ∉ l)⟩

/-- Total degree: number of incident edges (for the zero test of
`nx.isolates` the networkx double-counting of self-loops is
irrelevant). -/
def Graph.degree (G : Graph) (n : String) : Nat :=
  (G.edges.filter (fun e => e.1 == n || e.2 == n)).length

/-- The isolated nodes, `list(nx.isolates(G))`. -/
def isolateKeys (G : Graph) : List String :=
  G.nodeKeys.filter (fun n => G.degree n == 0)

/-- Models `G.remove_nodes_from(list(nx.isolates(G)))`. -/
def removeIsolated (G : Graph) : Graph :=
  G.removeNodes (isolateKeys G)

/-! ## Bipartite graph builder -/

/-- The body of `for interaction in all_interactions`: taxon-node
visibility, metabolite-node visibility (hide-set, environmental-source
restriction, target-taxon exception), then the directed edge by
direction – added regardless of the visibility outcome. -/
def processInteraction (hideTaxa hideMetabolites envSources : Option (List String))
    (targetTaxon : Option String) (G : Graph) (r : InteractionRecord) : Graph :=
  let G1 :=
    if hideTaxa = none ∨ r.taxon ∉ hideTaxa.getD [] then G.addNode r.taxon 0 else G
  let G2 :=
    if hideMetabolites = none ∨ r.metabolite ∉ hideMetabolites.getD [] then
      if envSources = none ∨ r.metabolite ∈ envSources.getD [] then
        G1.addNode r.metabolite 1
      else
        match targetTaxon with
        | some t =>
          if r.taxon = t ∨ r.metabolite = t then G1.addNode r.metabolite 1 else G1
        | none => G1
    else G1
  if r.direction = exportLit then G2.addEdge r.taxon r.metabolite
  else if r.direction = importLit then G2.addEdge r.metabolite r.taxon
  else G2

/-- The construction pass over the filtered interactions. -/
def buildGraph (interactions : List InteractionRecord)
    (hideTaxa hideMetabolites envSources : Option (List String))
    (targetTaxon : Option String) : Graph :=
  interactions.foldl (processInteraction hideTaxa hideMetabolites envSources targetTaxon)
    ⟨[], []⟩

/-- Models `for source in environmental_carbon_sources or []: if source not in
G.nodes: G.add_node(source, bipartite=1)`. -/
def envEnsure (G : Graph) (envSources : Option (List String)) : Graph :=
  (envSources.getD []).foldl
    (fun g s => if s ∈ g.nodeKeys then g else g.addNode s 1) G

/-- The removal condition of the target-focus pruning loop for one node:
the node carries the `bipartite` attribute, is not an environmental
source, is metabolite-class, has no edge from itself to the target
taxon, and is not protected by the keep-set. -/
def pruneCond (G : Graph) (t : String) (envSources keepMetabolites : Option (List String))
    (n : String) : Prop :=
  ((G.attr n).isSome ∧ n ∉ envSources.getD [] ∧ G.attr n = some 1) ∧
    (¬ G.hasEdge n t ∧ (keepMetabolites = none ∨ n ∉ keepMetabolites.getD []))

instance (G : Graph) (t : String) (env keep : Option (List String)) (n : String) :
    Decidable (pruneCond G t env keep n) :=
  inferInstanceAs (Decidable (_ ∧ _))

/-- One iteration of `for node in list(G.nodes)` of the target-focus
pruning step. -/
def pruneStep (t : String) (envSources keepMetabolites : Option (List String))
    (G : Graph) (n : String) : Graph :=
  if pruneCond G t envSources keepMetabolites n then G.removeNode n else G

/-- The target-focus pruning step: iterate over a snapshot of the node
list, removing unprotected metabolite nodes with no edge to the target
taxon. -/
def targetPrune (G : Graph) (t : String)
    (envSources keepMetabolites : Option (List String)) : Graph :=
  G.nodeKeys.foldl (pruneStep t envSources keepMetabolites) G

/-- The post-processing of `generate_bipartite_graph`: hide-set
removal, environmental-source insertion, target-focus pruning, isolate
removal. -/
def postProcess (G : Graph) (hideTaxa hideMetabolites envSources : Option (List String))
    (targetTaxon : Option String) (keepMetabolites : Option (List String)) : Graph :=
  let G1 := match hideTaxa with | some l => G.removeNodes l | none => G
  let G2 := match hideMetabolites with | some l => G1.removeNodes l | none => G1
  let G3 := envEnsure G2 envSources
  let G4 :=
    match targetTaxon with
    | some t => targetPrune G3 t envSources keepMetabolites
    | none => G3
  removeIsolated G4

/-- The whole pipeline after the reading loop: sort, flux cutoff,
construction pass, post-processing. -/
def generateFromRecords (records : List InteractionRecord)
    (hideTaxa hideMetabolites : Option (List String)) (cutoff : Option FluxCutoff)
    (targetTaxon : Option String) (envSources keepMetabolites : Option (List String)) :
    Except CutoffError Graph :=
  match applyFluxCutoff cutoff (sortByFluxDesc records) with
  | .error e => .error e
  | .ok kept =>
    .ok (postProcess (buildGraph kept hideTaxa hideMetabolites envSources targetTaxon)
      hideTaxa hideMetabolites envSources targetTaxon keepMetabolites)

/-- Failure of `generate_bipartite_graph`: a row extraction error or a
filter-stage error. -/
inductive BuildError where
  | row : RowError → BuildError
  | cut : CutoffError → BuildError
deriving DecidableEq, Repr

/-- Models `generate_bipartite_graph` over the lines of the exchange file. -/
def generateBipartiteGraph (lines : List String)
    (hideTaxa hideMetabolites : Option (List String)) (cutoff : Option FluxCutoff)
    (targetTaxon : Option String) (envSources : Option (List String))
    (relabel : Option (List (String × String)))
    (keepMetabolites : Option (List String)) : Except BuildError Graph :=
  match parseTable relabel lines with
  | .error e => .error (.row e)
  | .ok records =>
    match generateFromRecords records hideTaxa hideMetabolites cutoff targetTaxon
        envSources keepMetabolites with
    | .error e => .error (.cut e)
    | .ok G => .ok G

/-! ## Graph serializer -/

/-- The node-link document produced by
`nx.readwrite.json_graph.node_link_data(G)`: one entry per node with its
attributes, one entry per directed edge. -/
structure NodeLinkDoc where
  docNodes : List (String × Option Nat)
  docLinks : List (String × String)
deriving DecidableEq, Repr

/-- Serialization to the node-link form. -/
def nodeLinkData (G : Graph) : NodeLinkDoc := ⟨G.nodes, G.edges⟩

/-- Modelled from the spec: the deserializer of the round-trip contract
of the Graph Serializer ("re-parsing the serialized form must
reconstruct a graph with identical node set, node classes, and edge
set") is not part of the repository code; following networkx
`node_link_graph` semantics, every node entry is added with its class
and every link becomes a directed edge. -/
def nodeLinkGraph (d : NodeLinkDoc) : Graph :=
  let G0 := d.docNodes.foldl
    (fun g p =>
      match p.2 with
      | some b => g.addNode p.1 b
      | none => g.addBare p.1) ⟨[], []⟩
  d.docLinks.foldl (fun g e => g.addEdge e.1 e.2) G0

/-! ## Target-focus subgraph extractor (`plot_trophic_interactions`) -/

/-- Models `bipartite_graph.neighbors(n)` on a `DiGraph`: the successors. -/
def Graph.successors (G : Graph) (n : String) : List String :=
  (G.edges.filter (fun e => e.1 == n)).map Prod.snd

/-- The predecessors of a node. -/
def Graph.predecessors (G : Graph) (n : String) : List String :=
  (G.edges.filter (fun e => e.2 == n)).map Prod.fst

/-- Models `bipartite_graph.to_undirected().neighbors(n)`: neighbors in either
direction, without duplicates. -/
def Graph.undirNeighbors (G : Graph) (n : String) : List String :=
  (G.successors n ++ G.predecessors n).dedup

/-- Models `direct_nodes`: `list(bipartite_graph.neighbors(target_compound)) +
[target_compound]` when a target compound is set, else empty. -/
def directNodes (G : Graph) (targetCompound : Option String) : List String :=
  match targetCompound with
  | some c => G.successors c ++ [c]
  | none => []

/-- Models `indirect_nodes`: neighbors of every direct node. -/
def indirectNodes (G : Graph) (targetCompound : Option String) : List String :=
  (directNodes G targetCompound).flatMap (fun n => G.successors n)

/-- Models `indirect_nodes_extended`: neighbors of every indirect node. -/
def indirectExtended (G : Graph) (targetCompound : Option String) : List String :=
  (indirectNodes G targetCompound).flatMap (fun n => G.successors n)

/-- Models `target_taxon_compounds`: undirected neighbors of the target taxon
restricted to metabolite-class nodes (the source reads
`G.nodes[n]["bipartite"] == 1`, assuming the attribute present). -/
def targetTaxonCompounds (G : Graph) (targetTaxon : Option String) : List String :=
  match targetTaxon with
  | some t => (G.undirNeighbors t).filter (fun n => G.attr n == some 1)
  | none => []

/-- Models `species_connected_to_target_taxon_compounds`: taxon-class
successors of each target-taxon compound. -/
def speciesNearCompounds (G : Graph) (targetTaxon : Option String) : List String :=
  (targetTaxonCompounds G targetTaxon).flatMap
    (fun c => (G.successors c).filter (fun n => G.attr n == some 0))

/-- The union assembled into `subgraph_nodes` before the emptiness
test. -/
def rawSelected (G : Graph) (targetCompound targetTaxon : Option String)
    (highlightCompounds : List String) : List String :=
  directNodes G targetCompound ++ indirectNodes G targetCompound ++
    indirectExtended G targetCompound ++ targetTaxonCompounds G targetTaxon ++
    speciesNearCompounds G targetTaxon ++ highlightCompounds

/-- The selected subgraph node set: the assembled union, or every node
of the full graph when that union is empty. -/
def selectedNodes (G : Graph) (targetCompound targetTaxon : Option String)
    (highlightCompounds : List String) : List String :=
  let s := rawSelected G targetCompound targetTaxon highlightCompounds
  if s.isEmpty then G.nodeKeys else s

/-- Models `bipartite_graph.subgraph(subgraph_nodes)`: the induced subgraph,
attributes preserved. -/
def inducedSubgraph (G : Graph) (sel : List String) : Graph :=
  ⟨G.nodes.filter (fun p => p.1 ∈ sel),
   G.edges.filter (fun e => e.1 ∈ sel ∧ e.2 ∈ sel)⟩

/-- Models `medium_donor_edges`: edges of the full graph from an environmental
source to a taxon-class node. -/
def donorEdges (G : Graph) (envSources : Option (List String)) : List (String × String) :=
  G.edges.filter (fun e => e.1 ∈ envSources.getD [] ∧ G.attr e.2 == some 0)

/-- Attribute fix-up of one node entry: a missing `bipartite` attribute
becomes the metabolite class `1`. -/
def fixEntry (p : String × Option Nat) : String × Option Nat :=
  match p.2 with
  | none => (p.1, some 1)
  | some b => (p.1, some b)

/-- Models `extended_subgraph.nodes[node]["bipartite"] = 1` for every node
still missing the attribute after the donor-edge extension. -/
def fixMissingAttrs (G : Graph) : Graph :=
  ⟨G.nodes.map fixEntry, G.edges⟩

/-- The extended subgraph of `plot_trophic_interactions`: induced
subgraph over the selected nodes, extended with the donor edges when
environmental sources are supplied, then the attribute fix-up. -/
def extractorGraph (G : Graph) (targetCompound targetTaxon : Option String)
    (highlightCompounds : List String) (envSources : Option (List String)) : Graph :=
  let sub := inducedSubgraph G (selectedNodes G targetCompound targetTaxon highlightCompounds)
  let ext :=
    if envSources.getD [] ≠ [] then
      (donorEdges G envSources).foldl (fun g e => g.addEdge e.1 e.2) sub
    else sub
  fixMissingAttrs ext

/-! ## Concrete inputs taken from the examples of the specification -/

/-- Taxon name of the worked examples. -/
def nA : String := "A"

/-- Taxon name of the worked examples. -/
def nB : String := "B"

/-- Metabolite name of the worked examples. -/
def nX : String := "X"

/-- Metabolite name of the worked examples. -/
def nY : String := "Y"

/-- Record `(A, X, export, 5)`. -/
def recAX : InteractionRecord := ⟨nA, nX, exportLit, 5⟩

/-- Record `(B, X, import, 2)`. -/
def recBX : InteractionRecord := ⟨nB, nX, importLit, 2⟩

/-- Record `(A, Y, export, 0.1)`. -/
def recAY : InteractionRecord := ⟨nA, nY, exportLit, mkRat 1 10⟩

/-- The record list of the specification examples. -/
def exRecords : List InteractionRecord := [recAX, recBX, recAY]

/-- A header line of the exchange table (contains the word `taxon`). -/
def exHdr : String := "idx\ttaxon\ta\tb\tc\tflux\tf\tmetabolite\tdirection"

/-- A well-formed data row: taxon `A`, metabolite `X`, export, flux 5. -/
def exLineAX : String := "0\tA_sp\tq\tq\tq\t5\tq\tX_e\texport"

/-- A well-formed data row: taxon `B`, metabolite `X`, import, flux 2. -/
def exLineBX : String := "1\tB_sp\tq\tq\tq\t2\tq\tX_e\timport"

/-- A malformed data row: the flux field is not numeric. -/
def exLineBad : String := "2\tB_sp\tq\tq\tq\tzz\tq\tY_e\timport"

/-- A well-formed data row whose taxon identifier contains the
substring `taxon`. -/
def exLineTaxonId : String := "3\tMytaxonA_sp\tq\tq\tq\t5\tq\tglc_e\texport"

/-- A two-node graph with the single edge `A → X`. -/
def gAX : Graph := ⟨[(nA, some 0), (nX, some 1)], [(nA, nX)]⟩

/-- A two-node graph with the single edge `X → A` (the metabolite is
imported by the taxon). -/
def gXA : Graph := ⟨[(nA, some 0), (nX, some 1)], [(nX, nA)]⟩

/-- Environmental-source name of the extractor example. -/
def nE : String := "E"

/-- Taxon name of the extractor example, reachable only through the
donor edge. -/
def nT : String := "T"

/-- Target-compound name of the extractor example. -/
def nC : String := "C"

/-- Extractor example: compound `C` feeds taxon `B`; environmental
source `E` has a donor edge to taxon `T`. -/
def gDonor : Graph :=
  ⟨[(nC, some 1), (nB, some 0), (nE, some 1), (nT, some 0)],
   [(nC, nB), (nE, nT)]⟩

/-- The cutoff index of the top-10% percentile filter over `n` records:
`max(1, int(n * 0.1))`, with the exact-arithmetic identity
`int(n * 0.1) = n / 10` (natural division). -/
def top10Idx (n : Nat) : Nat := max 1 (n / 10)

/-- The inclusive flux floor of the top-10% percentile filter: the flux
stored at rank `cutoff_idx - 1` of the descending-sorted list. -/
def top10Floor (recs : List InteractionRecord) : ℚ :=
  ((sortByFluxDesc recs).getD (top10Idx recs.length - 1) defaultRecord).flux

/-! ## Basic lemmas about the graph operations -/

theorem mem_nodeKeys_iff (G : Graph) (x : String) :
    x ∈ G.nodeKeys ↔ ∃ p ∈ G.nodes, p.1 = x := by
  simp [Graph.nodeKeys, List.mem_map, eq_comm]

theorem lookupAttr_eq_none_of_not_mem (l : List (String × Option Nat)) (x : String)
    (h : x ∉ l.map Prod.fst) : lookupAttr l x = none := by
  induction l with
  | nil => rfl
  | cons p rest ih =>
    simp only [List.map_cons, List.mem_cons] at h
    push_neg at h
    rw [lookupAttr, if_neg (fun he => h.1 he.symm)]
    exact ih h.2

theorem attr_eq_none_of_not_mem (G : Graph) (x : String) (h : x ∉ G.nodeKeys) :
    G.attr x = none :=
  lookupAttr_eq_none_of_not_mem G.nodes x h

theorem lookupAttr_append_sing (l : List (String × Option Nat)) (n : String)
    (a : Option Nat) (x : String) :
    lookupAttr (l ++ [(n, a)]) x =
      if x ∈ l.map Prod.fst then lookupAttr l x else if n = x then a else none := by
  induction l with
  | nil => simp [lookupAttr]
  | cons p rest ih =>
    by_cases hp : p.1 = x
    · simp [lookupAttr, hp]
    · have hx : ¬ x = p.1 := fun he => hp he.symm
      rw [List.cons_append, lookupAttr, if_neg hp, ih, List.map_cons]
      have hcond : (x ∈ p.1 :: rest.map Prod.fst) ↔ (x ∈ rest.map Prod.fst) := by
        simp [hx]
      rw [if_congr hcond rfl rfl,
        show lookupAttr (p :: rest) x = lookupAttr rest x from by
          rw [lookupAttr, if_neg hp]]

theorem lookupAttr_filter (l : List (String × Option Nat))
    (q : String × Option Nat → Bool) (x : String)
    (h : ∀ p : String × Option Nat, p.1 = x → q p = true) :
    lookupAttr (l.filter q) x = lookupAttr l x := by
  induction l with
  | nil => rfl
  | cons p rest ih =>
    by_cases hq : q p = true
    · rw [List.filter_cons_of_pos hq]
      by_cases hp : p.1 = x
      · simp [lookupAttr, hp]
      · rw [lookupAttr, if_neg hp, lookupAttr, if_neg hp]
        exact ih
    · rw [List.filter_cons_of_neg hq]
      have hp : p.1 ≠ x := fun he => hq (h p he)
      rw [lookupAttr, if_neg hp]
      exact ih

theorem nodeKeys_addNode (G : Graph) (n : String) (b : Nat) :
    (G.addNode n b).nodeKeys =
      if n ∈ G.nodeKeys then G.nodeKeys else G.nodeKeys ++ [n] := by
  by_cases h : n ∈ G.nodeKeys
  · rw [Graph.addNode, if_pos h, if_pos h]
    show (G.nodes.map (fun p => if p.1 == n then (n, some b) else p)).map Prod.fst =
      G.nodes.map Prod.fst
    rw [List.map_map]
    apply List.map_congr_left
    intro p _
    by_cases hp : p.1 = n
    · simp [Function.comp, hp]
    · simp [Function.comp, hp]
  · rw [Graph.addNode, if_neg h, if_neg h]
    show (G.nodes ++ [(n, some b)]).map Prod.fst = G.nodes.map Prod.fst ++ [n]
    simp

theorem mem_nodeKeys_addNode (G : Graph) (n : String) (b : Nat) (x : String) :
    x ∈ (G.addNode n b).nodeKeys ↔ x ∈ G.nodeKeys ∨ x = n := by
  rw [nodeKeys_addNode]
  by_cases h : n ∈ G.nodeKeys
  · rw [if_pos h]
    constructor
    · exact Or.inl
    · rintro (hx | rfl)
      · exact hx
      · exact h
  · rw [if_neg h]
    simp

theorem edges_addNode (G : Graph) (n : String) (b : Nat) :
    (G.addNode n b).edges = G.edges := by
  rw [Graph.addNode]
  by_cases h : n ∈ G.nodeKeys <;> simp [h]

theorem nodeKeys_addBare (G : Graph) (n : String) :
    (G.addBare n).nodeKeys =
      if n ∈ G.nodeKeys then G.nodeKeys else G.nodeKeys ++ [n] := by
  by_cases h : n ∈ G.nodeKeys
  · rw [Graph.addBare, if_pos h, if_pos h]
  · rw [Graph.addBare, if_neg h, if_neg h]
    show (G.nodes ++ [(n, none)]).map Prod.fst = G.nodes.map Prod.fst ++ [n]
    simp

theorem mem_nodeKeys_addBare (G : Graph) (n : String) (x : String) :
    x ∈ (G.addBare n).nodeKeys ↔ x ∈ G.nodeKeys ∨ x = n := by
  rw [nodeKeys_addBare]
  by_cases h : n ∈ G.nodeKeys
  · rw [if_pos h]
    constructor
    · exact Or.inl
    · rintro (hx | rfl)
      · exact hx
      · exact h
  · rw [if_neg h]
    simp

theorem edges_addBare (G : Graph) (n : String) :
    (G.addBare n).edges = G.edges := by
  rw [Graph.addBare]
  by_cases h : n ∈ G.nodeKeys <;> simp [h]

theorem attr_addBare (G : Graph) (n : String) (x : String) :
    (G.addBare n).attr x = G.attr x := by
  rw [Graph.addBare]
  by_cases h : n ∈ G.nodeKeys
  · rw [if_pos h]
  · rw [if_neg h]
    show lookupAttr (G.nodes ++ [(n, none)]) x = lookupAttr G.nodes x
    rw [lookupAttr_append_sing]
    by_cases hx : x ∈ G.nodes.map Prod.fst
    · rw [if_pos hx]
    · rw [if_neg hx, lookupAttr_eq_none_of_not_mem G.nodes x hx]
      by_cases hn : n = x <;> simp [hn]

theorem attr_addEdge (G : Graph) (u v : String) (x : String) :
    (G.addEdge u v).attr x = G.attr x := by
  rw [Graph.addEdge]
  by_cases h : (u, v) ∈ ((G.addBare u).addBare v).edges
  · simp only [if_pos h]
    rw [attr_addBare, attr_addBare]
  · simp only [if_neg h]
    show ((G.addBare u).addBare v).attr x = G.attr x
    rw [attr_addBare, attr_addBare]

theorem mem_edges_addEdge (G : Graph) (u v : String) (e : String × String) :
    e ∈ (G.addEdge u v).edges ↔ e ∈ G.edges ∨ e = (u, v) := by
  rw [Graph.addEdge]
  by_cases h : (u, v) ∈ ((G.addBare u).addBare v).edges
  · rw [if_pos h]
    rw [edges_addBare, edges_addBare] at h ⊢
    constructor
    · exact Or.inl
    · rintro (hx | rfl)
      · exact hx
      · exact h
  · rw [if_neg h]
    show e ∈ ((G.addBare u).addBare v).edges ++ [(u, v)] ↔ _
    rw [edges_addBare, edges_addBare]
    simp

theorem mem_nodeKeys_addEdge (G : Graph) (u v : String) (x : String) :
    x ∈ (G.addEdge u v).nodeKeys ↔ x ∈ G.nodeKeys ∨ x = u ∨ x = v := by
  rw [Graph.addEdge]
  by_cases h : (u, v) ∈ ((G.addBare u).addBare v).edges
  · rw [if_pos h, mem_nodeKeys_addBare, mem_nodeKeys_addBare]
    tauto
  · rw [if_neg h]
    show x ∈ (Graph.mk ((G.addBare u).addBare v).nodes _).nodeKeys ↔ _
    have : (Graph.mk ((G.addBare u).addBare v).nodes
        (((G.addBare u).addBare v).edges ++ [(u, v)])).nodeKeys =
        ((G.addBare u).addBare v).nodeKeys := rfl
    rw [this, mem_nodeKeys_addBare, mem_nodeKeys_addBare]
    tauto

theorem mem_nodeKeys_removeNode (G : Graph) (n : String) (x : String) :
    x ∈ (G.removeNode n).nodeKeys ↔ x ∈ G.nodeKeys ∧ x ≠ n := by
  show x ∈ (G.nodes.filter _).map Prod.fst ↔ _
  constructor
  · intro hx
    rcases List.mem_map.mp hx with ⟨p, hp, hpx⟩
    rcases List.mem_filter.mp hp with ⟨hp1, hp2⟩
    simp only [decide_eq_true_eq] at hp2
    exact ⟨List.mem_map.mpr ⟨p, hp1, hpx⟩, hpx ▸ hp2⟩
  · rintro ⟨hx, hne⟩
    rcases List.mem_map.mp hx with ⟨p, hp, hpx⟩
    exact List.mem_map.mpr ⟨p, List.mem_filter.mpr ⟨hp, by simp [hpx, hne]⟩, hpx⟩

theorem attr_removeNode (G : Graph) (n : String) (x : String) (h : x ≠ n) :
    (G.removeNode n).attr x = G.attr x := by
  apply lookupAttr_filter
  intro p hp
  simp [hp, h]

theorem mem_edges_removeNode (G : Graph) (n : String) (e : String × String) :
    e ∈ (G.removeNode n).edges ↔ e ∈ G.edges ∧ e.1 ≠ n ∧ e.2 ≠ n := by
  show e ∈ G.edges.filter _ ↔ _
  rw [List.mem_filter]
  simp

theorem mem_nodeKeys_removeNodes (G : Graph) (l : List String) (x : String) :
    x ∈ (G.removeNodes l).nodeKeys ↔ x ∈ G.nodeKeys ∧ x ∉ l := by
  show x ∈ (G.nodes.filter _).map Prod.fst ↔ _
  constructor
  · intro hx
    rcases List.mem_map.mp hx with ⟨p, hp, hpx⟩
    rcases List.mem_filter.mp hp with ⟨hp1, hp2⟩
    simp only [decide_eq_true_eq] at hp2
    exact ⟨List.mem_map.mpr ⟨p, hp1, hpx⟩, hpx ▸ hp2⟩
  · rintro ⟨hx, hne⟩
    rcases List.mem_map.mp hx with ⟨p, hp, hpx⟩
    exact List.mem_map.mpr ⟨p, List.mem_filter.mpr ⟨hp, by simp [hpx, hne]⟩, hpx⟩

theorem mem_edges_removeNodes (G : Graph) (l : List String) (e : String × String) :
    e ∈ (G.removeNodes l).edges ↔ e ∈ G.edges ∧ e.1 ∉ l ∧ e.2 ∉ l := by
  show e ∈ G.edges.filter _ ↔ _
  rw [List.mem_filter]
  simp

theorem degree_eq_zero_iff (G : Graph) (n : String) :
    G.degree n = 0 ↔ ∀ e ∈ G.edges, e.1 ≠ n ∧ e.2 ≠ n := by
  rw [Graph.degree, List.length_eq_zero, List.filter_eq_nil_iff]
  constructor
  · intro h e he
    have := h e he
    simp only [Bool.or_eq_true, beq_iff_eq, not_or] at this
    exact this
  · intro h e he
    have := h e he
    simp only [Bool.or_eq_true, beq_iff_eq, not_or]
    exact this

theorem degree_pos_of_incident (G : Graph) (n : String) (e : String × String)
    (he : e ∈ G.edges) (hi : e.1 = n ∨ e.2 = n) : 0 < G.degree n := by
  rcases Nat.eq_zero_or_pos (G.degree n) with h0 | hpos
  · rcases (degree_eq_zero_iff G n).mp h0 e he with ⟨h1, h2⟩
    rcases hi with hi | hi
    · exact absurd hi h1
    · exact absurd hi h2
  · exact hpos

theorem mem_isolateKeys (G : Graph) (x : String) :
    x ∈ isolateKeys G ↔ x ∈ G.nodeKeys ∧ G.degree x = 0 := by
  rw [isolateKeys, List.mem_filter]
  simp

theorem edges_removeIsolated (G : Graph) : (removeIsolated G).edges = G.edges := by
  rw [removeIsolated, Graph.removeNodes]
  show G.edges.filter _ = G.edges
  rw [List.filter_eq_self]
  intro e he
  have h1 : e.1 ∉ isolateKeys G := by
    rw [mem_isolateKeys]
    rintro ⟨_, hdeg⟩
    exact absurd rfl ((degree_eq_zero_iff G e.1).mp hdeg e he).1
  have h2 : e.2 ∉ isolateKeys G := by
    rw [mem_isolateKeys]
    rintro ⟨_, hdeg⟩
    exact absurd rfl ((degree_eq_zero_iff G e.2).mp hdeg e he).2
  simp [h1, h2]

theorem degree_removeIsolated (G : Graph) (x : String) :
    (removeIsolated G).degree x = G.degree x := by
  rw [Graph.degree, Graph.degree, edges_removeIsolated]

theorem mem_nodeKeys_removeIsolated (G : Graph) (x : String) :
    x ∈ (removeIsolated G).nodeKeys ↔ x ∈ G.nodeKeys ∧ G.degree x ≠ 0 := by
  rw [removeIsolated, mem_nodeKeys_removeNodes, mem_isolateKeys]
  constructor
  · rintro ⟨hx, hni⟩
    exact ⟨hx, fun h0 => hni ⟨hx, h0⟩⟩
  · rintro ⟨hx, hd⟩
    exact ⟨hx, fun hc => hd hc.2⟩

theorem removeIsolated_degree_pos (G : Graph) (x : String)
    (h : x ∈ (removeIsolated G).nodeKeys) : 0 < (removeIsolated G).degree x := by
  rcases (mem_nodeKeys_removeIsolated G x).mp h with ⟨_, hd⟩
  rw [degree_removeIsolated]
  exact Nat.pos_of_ne_zero hd

theorem removeIsolated_not_mem_of_no_edges (G : Graph) (m : String)
    (h : ∀ e ∈ G.edges, e.1 ≠ m ∧ e.2 ≠ m) : m ∉ (removeIsolated G).nodeKeys := by
  rw [mem_nodeKeys_removeIsolated]
  rintro ⟨_, hd⟩
  exact hd ((degree_eq_zero_iff G m).mpr h)

theorem edges_envEnsure (G : Graph) (envSources : Option (List String)) :
    (envEnsure G envSources).edges = G.edges := by
  rw [envEnsure]
  generalize envSources.getD [] = l
  induction l generalizing G with
  | nil => rfl
  | cons s rest ih =>
    rw [List.foldl_cons]
    by_cases hs : s ∈ G.nodeKeys
    · rw [if_pos hs]
      exact ih G
    · rw [if_neg hs]
      rw [ih (G.addNode s 1), edges_addNode]

/-! ## Lemmas about the target-focus pruning loop -/

theorem prune_fold_subset (t : String) (env keep : Option (List String)) :
    ∀ (l : List String) (G : Graph) (x : String),
      x ∈ (l.foldl (pruneStep t env keep) G).nodeKeys → x ∈ G.nodeKeys := by
  intro l
  induction l with
  | nil => intro G x h; exact h
  | cons m l ih =>
    intro G x h
    rw [List.foldl_cons] at h
    have h2 := ih (pruneStep t env keep G m) x h
    rw [pruneStep] at h2
    by_cases hc : pruneCond G t env keep m
    · rw [if_pos hc] at h2
      exact ((mem_nodeKeys_removeNode G m x).mp h2).1
    · rw [if_neg hc] at h2
      exact h2

theorem prune_fold_edges_subset (t : String) (env keep : Option (List String)) :
    ∀ (l : List String) (G : Graph) (e : String × String),
      e ∈ (l.foldl (pruneStep t env keep) G).edges → e ∈ G.edges := by
  intro l
  induction l with
  | nil => intro G e h; exact h
  | cons m l ih =>
    intro G e h
    rw [List.foldl_cons] at h
    have h2 := ih (pruneStep t env keep G m) e h
    rw [pruneStep] at h2
    by_cases hc : pruneCond G t env keep m
    · rw [if_pos hc] at h2
      exact ((mem_edges_removeNode G m e).mp h2).1
    · rw [if_neg hc] at h2
      exact h2

theorem edges_targetPrune_subset (G : Graph) (t : String)
    (env keep : Option (List String)) (e : String × String)
    (h : e ∈ (targetPrune G t env keep).edges) : e ∈ G.edges :=
  prune_fold_edges_subset t env keep G.nodeKeys G e h

theorem prune_foldl_mem (t : String) (env keep : Option (List String)) (n : String)
    (hne : n ≠ t) :
    ∀ (l : List String) (G : Graph), G.attr t ≠ some 1 →
      (n ∈ (l.foldl (pruneStep t env keep) G).nodeKeys ↔
        (n ∈ G.nodeKeys ∧ (n ∉ l ∨ ¬ pruneCond G t env keep n))) := by
  intro l
  induction l with
  | nil =>
    intro G _
    simp
  | cons m l ih =>
    intro G htt
    rw [List.foldl_cons]
    by_cases hmn : m = n
    · subst hmn
      by_cases hc : pruneCond G t env keep m
      · rw [pruneStep, if_pos hc]
        have hnm : m ∉ (G.removeNode m).nodeKeys := by
          rw [mem_nodeKeys_removeNode]
          rintro ⟨_, hmm⟩
          exact hmm rfl
        constructor
        · intro hmem
          exact absurd (prune_fold_subset t env keep l (G.removeNode m) m hmem) hnm
        · rintro ⟨hG, hml | hcn⟩
          · exact absurd (List.mem_cons_self m l) hml
          · exact absurd hc hcn
      · rw [pruneStep, if_neg hc, ih G htt]
        constructor
        · rintro ⟨hG, _⟩
          exact ⟨hG, Or.inr hc⟩
        · rintro ⟨hG, _⟩
          exact ⟨hG, Or.inr hc⟩
    · have hnm : n ≠ m := fun he => hmn he.symm
      by_cases hc : pruneCond G t env keep m
      · rw [pruneStep, if_pos hc]
        have hmt : m ≠ t := fun he => htt (he ▸ hc.1.2.2)
        have htt2 : (G.removeNode m).attr t ≠ some 1 := by
          rw [attr_removeNode G m t (Ne.symm hmt)]
          exact htt
        rw [ih (G.removeNode m) htt2, mem_nodeKeys_removeNode]
        have hcond : pruneCond (G.removeNode m) t env keep n ↔
            pruneCond G t env keep n := by
          unfold pruneCond Graph.hasEdge
          rw [attr_removeNode G m n hnm, mem_edges_removeNode]
          constructor
          · rintro ⟨ha, hb, hk⟩
            refine ⟨ha, fun hmem => hb ⟨hmem, hnm, Ne.symm hmt⟩, hk⟩
          · rintro ⟨ha, hb, hk⟩
            refine ⟨ha, fun hmem => hb hmem.1, hk⟩
        rw [hcond]
        have hmem2 : (n ∉ m :: l) ↔ (n ∉ l) := by simp [List.mem_cons, hnm]
        rw [hmem2]
        tauto
      · rw [pruneStep, if_neg hc, ih G htt]
        have hmem2 : (n ∉ m :: l) ↔ (n ∉ l) := by simp [List.mem_cons, hnm]
        rw [hmem2]

/-! ## Destructuring the pipeline -/

theorem generateFromRecords_ok (records : List InteractionRecord)
    (hideTaxa hideMetabolites : Option (List String)) (cutoff : Option FluxCutoff)
    (targetTaxon : Option String) (envSources keepMetabolites : Option (List String))
    (G : Graph)
    (h : generateFromRecords records hideTaxa hideMetabolites cutoff targetTaxon
      envSources keepMetabolites = .ok G) :
    ∃ kept, applyFluxCutoff cutoff (sortByFluxDesc records) = .ok kept ∧
      G = postProcess (buildGraph kept hideTaxa hideMetabolites envSources targetTaxon)
        hideTaxa hideMetabolites envSources targetTaxon keepMetabolites := by
  unfold generateFromRecords at h
  cases hc : applyFluxCutoff cutoff (sortByFluxDesc records) with
  | error e =>
    rw [hc] at h
    exact absurd h (by simp)
  | ok kept =>
    rw [hc] at h
    exact ⟨kept, rfl, (Except.ok.inj h).symm⟩

theorem postProcess_eq (G : Graph)
    (hideTaxa hideMetabolites envSources : Option (List String))
    (targetTaxon : Option String) (keepMetabolites : Option (List String)) :
    postProcess G hideTaxa hideMetabolites envSources targetTaxon keepMetabolites =
      removeIsolated
        (match targetTaxon with
         | some t =>
           targetPrune
             (envEnsure
               (match hideMetabolites with
                | some l =>
                  (match hideTaxa with
                   | some l2 => G.removeNodes l2
                   | none => G).removeNodes l
                | none =>
                  match hideTaxa with
                  | some l2 => G.removeNodes l2
                  | none => G) envSources) t envSources keepMetabolites
         | none =>
           envEnsure
             (match hideMetabolites with
              | some l =>
                (match hideTaxa with
                 | some l2 => G.removeNodes l2
                 | none => G).removeNodes l
              | none =>
                match hideTaxa with
                | some l2 => G.removeNodes l2
                | none => G) envSources) := rfl

/-! ## Claim C1: target-focus pruning -/

/-- C1 (amended): with a target taxon set, a metabolite node carrying the
`bipartite` attribute that is neither an environmental source nor in the
keep-set is removed by the target-focus pruning step exactly when the graph has
no edge from the metabolite to the target taxon; an edge from the target taxon
to the metabolite does not protect it. -/
theorem targetPrune_keeps_iff (G : Graph) (t n : String)
    (env keep : Option (List String)) (htt : G.attr t ≠ some 1) (hne : n ≠ t)
    (hattr : G.attr n = some 1) (henv : n ∉ env.getD [])
    (hkeep : keep = none ∨ n ∉ keep.getD []) :
    n ∈ (targetPrune G t env keep).nodeKeys ↔
      n ∈ G.nodeKeys ∧ (n, t) ∈ G.edges := by
  rw [targetPrune, prune_foldl_mem t env keep n hne G.nodeKeys G htt]
  constructor
  · rintro ⟨hG, h2⟩
    refine ⟨hG, ?_⟩
    rcases h2 with h2 | h2
    · exact absurd hG h2
    · by_contra hne2
      exact h2 ⟨⟨by simp [hattr], henv, hattr⟩, hne2, hkeep⟩
  · rintro ⟨hG, hedge⟩
    refine ⟨hG, Or.inr ?_⟩
    rintro ⟨_, hb, _⟩
    exact hb hedge

/-- C1 witness: in the graph with the single edge `X → A`, metabolite `X`
survives pruning towards target taxon `A`. -/
theorem targetPrune_keeps_iff_wit :
    nX ∈ (targetPrune gXA nA none none).nodeKeys ↔
      nX ∈ gXA.nodeKeys ∧ (nX, nA) ∈ gXA.edges :=
  targetPrune_keeps_iff gXA nA nX none none (by decide) (by decide) (by decide)
    (by decide) (Or.inl rfl)

/-- C1 counterexample: on the example records with target taxon `A` and no
cutoff, metabolite `Y` – whose only connection to `A` is the export edge
`A → Y` – is present after construction but does not survive the pruning step,
contrary to the claim; the final result is the empty graph. -/
theorem targetPrune_example_removes_Y :
    nY ∈ (buildGraph (sortByFluxDesc exRecords) none none none (some nA)).nodeKeys ∧
    nY ∉ (targetPrune (buildGraph (sortByFluxDesc exRecords) none none none (some nA))
        nA none none).nodeKeys ∧
    generateFromRecords exRecords none none none (some nA) none none =
      .ok ⟨[], []⟩ := by decide

/-! ## Claim C2: hiding always wins over keep-set and environmental sources -/

/-- After the hide-set removal, neither the environmental re-insertion
nor the target-focus pruning can give the hidden node an incident edge,
so the isolate removal drops it. -/
theorem afterHide_not_mem (G2 : Graph) (env : Option (List String))
    (tt : Option String) (keep : Option (List String)) (m : String)
    (hE : ∀ e ∈ G2.edges, e.1 ≠ m ∧ e.2 ≠ m) :
    m ∉ (removeIsolated
      (match tt with
       | some t => targetPrune (envEnsure G2 env) t env keep
       | none => envEnsure G2 env)).nodeKeys := by
  cases tt with
  | none =>
    apply removeIsolated_not_mem_of_no_edges
    intro e he
    rw [edges_envEnsure] at he
    exact hE e he
  | some t =>
    apply removeIsolated_not_mem_of_no_edges
    intro e he
    have h3 := edges_targetPrune_subset _ t env keep e he
    rw [edges_envEnsure] at h3
    exact hE e h3

/-- Every edge surviving `remove_nodes_from(hide_metabolites)` avoids
every hidden metabolite. -/
theorem removeNodes_edges_avoid (G1 : Graph) (hideM : List String) (m : String)
    (hm : m ∈ hideM) :
    ∀ e ∈ (G1.removeNodes hideM).edges, e.1 ≠ m ∧ e.2 ≠ m := by
  intro e he
  rcases (mem_edges_removeNodes G1 hideM e).mp he with ⟨_, h1, h2⟩
  exact ⟨fun hh => h1 (hh ▸ hm), fun hh => h2 (hh ▸ hm)⟩

/-- A hidden metabolite never appears in the post-processed graph: the
hide-set removal drops the node and its incident edges; a later
environmental re-insertion is edge-less and thus pruned as isolated. -/
theorem postProcess_hidden_not_mem (G0 : Graph) (hideTaxa : Option (List String))
    (hideM : List String) (env : Option (List String)) (tt : Option String)
    (keep : Option (List String)) (m : String) (hm : m ∈ hideM) :
    m ∉ (postProcess G0 hideTaxa (some hideM) env tt keep).nodeKeys := by
  cases hideTaxa with
  | none =>
    exact afterHide_not_mem (G0.removeNodes hideM) env tt keep m
      (removeNodes_edges_avoid G0 hideM m hm)
  | some l2 =>
    exact afterHide_not_mem ((G0.removeNodes l2).removeNodes hideM) env tt keep m
      (removeNodes_edges_avoid (G0.removeNodes l2) hideM m hm)

/-- C2 (amended): a metabolite of the hide-set is absent from every graph the
builder returns, even when it is also in the keep-set or among the
environmental sources and has incident edges: membership of the hide-set is
not overridden. -/
theorem hidden_metabolite_absent (records : List InteractionRecord)
    (hideTaxa : Option (List String)) (hideM : List String)
    (cutoff : Option FluxCutoff) (tt : Option String)
    (env keep : Option (List String)) (m : String) (G : Graph) (hm : m ∈ hideM)
    (h : generateFromRecords records hideTaxa (some hideM) cutoff tt env keep =
      .ok G) : m ∉ G.nodeKeys := by
  rcases generateFromRecords_ok records hideTaxa (some hideM) cutoff tt env keep G h
    with ⟨kept, _, hG⟩
  subst hG
  exact postProcess_hidden_not_mem _ hideTaxa hideM env tt keep m hm

/-- C2 witness: hiding `X` while also keeping `X`, on the record
`(A, X, export, 5)`, yields the empty graph; in particular `X` is absent. -/
theorem hidden_metabolite_absent_wit :
    nX ∉ (Graph.mk [] [] : Graph).nodeKeys :=
  hidden_metabolite_absent [recAX] none [nX] none none none (some [nX]) nX
    ⟨[], []⟩ (by decide) (by decide)

/-- C2 counterexample: metabolite `X` is in the hide-set and in the keep-set
and has an incident edge in the construction pass, yet the built graph is
empty – the keep-set does not override hiding, contrary to the claim. -/
theorem hidden_keep_example :
    (nA, nX) ∈ (buildGraph (sortByFluxDesc [recAX]) none (some [nX]) none none).edges ∧
    generateFromRecords [recAX] none (some [nX]) none none none (some [nX]) =
      .ok ⟨[], []⟩ := by decide

/-! ## Claim C6: the hide-metabolite example -/

/-- C6 (amended): on the records `[(A, X, export, 5), (B, X, import, 2),
(A, Y, export, 0.1)]` with `hide_metabolites={X}` and no flux cutoff, the
builder removes `X` and both its edges and prunes the now isolated `B`, but
the third record keeps the edge `A → Y`, so the result is the graph with
nodes `{A, Y}` and edge `A → Y`, not the empty graph. -/
theorem hideX_example_graph :
    generateFromRecords exRecords none (some [nX]) none none none none =
      .ok ⟨[(nA, some 0), (nY, some 1)], [(nA, nY)]⟩ := by decide

/-- C6 counterexample: the result of the hide-`X` example is not the empty
graph claimed by the specification. -/
theorem hideX_example_not_empty :
    generateFromRecords exRecords none (some [nX]) none none none none ≠
      .ok ⟨[], []⟩ := by decide

/-! ## Claim C8: no isolated nodes -/

/-- C8: every graph returned by `generate_bipartite_graph` has no isolated
node: each node of the output has at least one incident edge. -/
theorem generated_graph_no_isolated (lines : List String)
    (hideTaxa hideMetabolites : Option (List String)) (cutoff : Option FluxCutoff)
    (targetTaxon : Option String) (envSources : Option (List String))
    (relabel : Option (List (String × String)))
    (keepMetabolites : Option (List String)) (G : Graph)
    (h : generateBipartiteGraph lines hideTaxa hideMetabolites cutoff targetTaxon
      envSources relabel keepMetabolites = .ok G) :
    ∀ n ∈ G.nodeKeys, 0 < G.degree n := by
  unfold generateBipartiteGraph at h
  cases hp : parseTable relabel lines with
  | error e =>
    rw [hp] at h
    exact absurd h (by simp)
  | ok records =>
    rw [hp] at h
    have h2 : (match generateFromRecords records hideTaxa hideMetabolites cutoff
        targetTaxon envSources keepMetabolites with
      | .error e => (.error (.cut e) : Except BuildError Graph)
      | .ok G2 => .ok G2) = .ok G := h
    cases hg : generateFromRecords records hideTaxa hideMetabolites cutoff
        targetTaxon envSources keepMetabolites with
    | error e =>
      rw [hg] at h2
      exact absurd h2 (by simp)
    | ok G2 =>
      rw [hg] at h2
      have hGG : G2 = G := Except.ok.inj h2
      subst hGG
      rcases generateFromRecords_ok records hideTaxa hideMetabolites cutoff
          targetTaxon envSources keepMetabolites G2 hg with ⟨kept, _, hG⟩
      subst hG
      intro n hn
      cases targetTaxon with
      | none => exact removeIsolated_degree_pos _ n hn
      | some t => exact removeIsolated_degree_pos _ n hn

/-- C8 witness: the two-line table with header and the `A`/`X` export row
produces the graph `A → X`, whose two nodes both have positive degree. -/
theorem generated_graph_no_isolated_wit :
    0 < gAX.degree nA ∧ 0 < gAX.degree nX :=
  ⟨generated_graph_no_isolated [exHdr, exLineAX] none none none none none none none
      gAX (by decide) nA (by decide),
    generated_graph_no_isolated [exHdr, exLineAX] none none none none none none none
      gAX (by decide) nX (by decide)⟩

/-! ## Claim C3: malformed rows are fatal, not skip-and-continue -/

/-- C3 (amended): when a data row (not skipped by the `taxon` test) has fewer
fields than the accessed column positions or a non-numeric flux, the whole
reading loop fails with that row's error: no warning is recorded, parsing does
not continue, and no record of any later row is produced. -/
theorem parse_aborts_on_malformed (relabel : Option (List (String × String)))
    (pre : List String) (bad : String) (rest : List String) (e : RowError)
    (hpre : ∀ l ∈ pre, hasTaxon l.data = true ∨ rowOk (parseRow relabel l) = true)
    (hskip : hasTaxon bad.data = false) (hbad : parseRow relabel bad = .error e) :
    parseTable relabel (pre ++ bad :: rest) = .error e := by
  induction pre with
  | nil =>
    simp [parseTable, hskip, hbad]
  | cons l pre ih =>
    have ih2 := ih (fun x hx => hpre x (List.mem_cons_of_mem l hx))
    by_cases hsk : hasTaxon l.data = true
    · simp only [List.cons_append, parseTable, hsk, if_true]
      exact ih2
    · have hskf : hasTaxon l.data = false := by
        revert hsk
        cases hasTaxon l.data <;> simp
      have hok : rowOk (parseRow relabel l) = true := by
        rcases hpre l (List.mem_cons_self l pre) with hcase | hcase
        · exact absurd hcase hsk
        · exact hcase
      cases hpr : parseRow relabel l with
      | error e2 =>
        rw [hpr] at hok
        exact absurd hok (by simp [rowOk])
      | ok r =>
        simp [parseTable, hskf, hpr, ih2]

/-- C3 witness: a well-formed row, then a row with non-numeric flux, then
another well-formed row: parsing fails with the flux error. -/
theorem parse_aborts_on_malformed_wit :
    parseTable none ([exLineAX] ++ exLineBad :: [exLineBX]) =
      .error .fluxNotNumeric :=
  parse_aborts_on_malformed none [exLineAX] exLineBad [exLineBX] .fluxNotNumeric
    (by decide) (by decide) (by decide)

/-- C3 counterexample: the table `[good, bad, good]` fails as a whole – the
second good row is well-formed but yields no record, so the malformed row is
not reported-and-skipped as the claim states. -/
theorem parse_malformed_fatal_example :
    parseTable none [exLineAX, exLineBad, exLineBX] = .error .fluxNotNumeric ∧
    rowOk (parseRow none exLineBX) = true := by decide

/-! ## Claim C5: which lines are skipped -/

/-- C5 (amended): the reading loop skips every line containing the substring
`taxon` – the header, but also any well-formed data row whose identifiers
contain it – and, provided every remaining line parses, produces exactly one
record per non-skipped line, in file order. -/
theorem parse_skips_taxon_lines (relabel : Option (List (String × String)))
    (lines : List String)
    (h : ∀ l ∈ lines, hasTaxon l.data = true ∨ rowOk (parseRow relabel l) = true) :
    parseTable relabel lines = .ok (lines.filterMap (rowFate relabel)) := by
  induction lines with
  | nil => rfl
  | cons l lines ih =>
    have ih2 := ih (fun x hx => h x (List.mem_cons_of_mem l hx))
    by_cases hsk : hasTaxon l.data = true
    · simp [parseTable, hsk, rowFate, ih2]
    · have hskf : hasTaxon l.data = false := by
        revert hsk
        cases hasTaxon l.data <;> simp
      have hok : rowOk (parseRow relabel l) = true := by
        rcases h l (List.mem_cons_self l lines) with hcase | hcase
        · exact absurd hcase hsk
        · exact hcase
      cases hpr : parseRow relabel l with
      | error e2 =>
        rw [hpr] at hok
        exact absurd hok (by simp [rowOk])
      | ok r =>
        simp [parseTable, hskf, hpr, ih2, rowFate, Except.toOption]

/-- C5 witness: header plus two data rows; the header is skipped and both
data rows contribute their records in order. -/
theorem parse_skips_taxon_lines_wit :
    parseTable none [exHdr, exLineAX, exLineBX] =
      .ok ([exHdr, exLineAX, exLineBX].filterMap (rowFate none)) :=
  parse_skips_taxon_lines none [exHdr, exLineAX, exLineBX] (by decide)

/-- C5 counterexample: a well-formed data row whose taxon identifier contains
the substring `taxon` is skipped by the reading loop and contributes no
record, contrary to the claim that only the header line is skipped. -/
theorem taxon_data_row_skipped :
    rowOk (parseRow none exLineTaxonId) = true ∧
    parseTable none [exLineTaxonId] = .ok [] := by decide

/-! ## Claim C7: the extractor's direct node set -/

/-- Successor membership is edge membership. -/
theorem mem_successors (G : Graph) (c n : String) :
    n ∈ G.successors c ↔ (c, n) ∈ G.edges := by
  rw [Graph.successors]
  constructor
  · intro h
    rcases List.mem_map.mp h with ⟨e, he, hen⟩
    rcases List.mem_filter.mp he with ⟨he1, he2⟩
    obtain ⟨a, b⟩ := e
    simp only [beq_iff_eq] at he2
    cases hen
    cases he2
    exact he1
  · intro h
    exact List.mem_map.mpr ⟨(c, n), List.mem_filter.mpr ⟨h, by simp⟩, rfl⟩

/-- C7 (amended): when the target compound is a node of the graph, the
extractor's `direct` set is the compound's successors – the neighbor
direction of a networkx `DiGraph` – together with the compound itself;
predecessors are not included; with no target compound it is empty. -/
theorem directNodes_charac (G : Graph) (c : String) (_hc : c ∈ G.nodeKeys)
    (n : String) :
    (n ∈ directNodes G (some c) ↔ (c, n) ∈ G.edges ∨ n = c) ∧
      directNodes G none = ([] : List String) := by
  refine ⟨?_, rfl⟩
  rw [directNodes]
  rw [List.mem_append, List.mem_singleton, mem_successors]

/-- C7 witness: in the graph `A → X` with target compound `X`, membership of
the direct set is characterized as stated. -/
theorem directNodes_charac_wit :
    (nA ∈ directNodes gAX (some nX) ↔ (nX, nA) ∈ gAX.edges ∨ nA = nX) ∧
      directNodes gAX none = ([] : List String) :=
  directNodes_charac gAX nX (by decide) nA

/-- C7 counterexample: `A` is a neighbor of the target compound `X` in the
predecessor direction (`A → X` is an edge), yet the extractor's direct list
for `X` is `[X]` alone – the code takes successors only, not both
directions. -/
theorem directNodes_example :
    (nA, nX) ∈ gAX.edges ∧ directNodes gAX (some nX) = [nX] := by decide

/-! ## Claim C10: donor-edge endpoints are reclassified as metabolites -/

theorem mem_donorEdges (G : Graph) (env : Option (List String))
    (e : String × String) :
    e ∈ donorEdges G env ↔
      e ∈ G.edges ∧ e.1 ∈ env.getD [] ∧ G.attr e.2 = some 0 := by
  rw [donorEdges, List.mem_filter]
  simp

theorem inducedSubgraph_keys_subset (G : Graph) (sel : List String) (x : String)
    (h : x ∈ (inducedSubgraph G sel).nodeKeys) : x ∈ sel := by
  rcases List.mem_map.mp h with ⟨p, hp, hpx⟩
  rcases List.mem_filter.mp hp with ⟨_, hp2⟩
  simp only [decide_eq_true_eq] at hp2
  exact hpx ▸ hp2

theorem fold_addEdge_attr (ls : List (String × String)) :
    ∀ (G : Graph) (x : String),
      (ls.foldl (fun g e => g.addEdge e.1 e.2) G).attr x = G.attr x := by
  induction ls with
  | nil => intro G x; rfl
  | cons f ls ih =>
    intro G x
    rw [List.foldl_cons, ih, attr_addEdge]

theorem fold_addEdge_keys_mono (ls : List (String × String)) :
    ∀ (G : Graph) (x : String), x ∈ G.nodeKeys →
      x ∈ (ls.foldl (fun g e => g.addEdge e.1 e.2) G).nodeKeys := by
  induction ls with
  | nil => intro G x h; exact h
  | cons f ls ih =>
    intro G x h
    rw [List.foldl_cons]
    exact ih _ x ((mem_nodeKeys_addEdge G f.1 f.2 x).mpr (Or.inl h))

theorem fold_addEdge_snd_mem (ls : List (String × String)) :
    ∀ (G : Graph) (e : String × String), e ∈ ls →
      e.2 ∈ (ls.foldl (fun g e => g.addEdge e.1 e.2) G).nodeKeys := by
  induction ls with
  | nil => intro G e h; cases h
  | cons f ls ih =>
    intro G e h
    rw [List.foldl_cons]
    rcases List.mem_cons.mp h with rfl | h2
    · exact fold_addEdge_keys_mono ls _ e.2
        ((mem_nodeKeys_addEdge G e.1 e.2 e.2).mpr (Or.inr (Or.inr rfl)))
    · exact ih _ e h2

theorem nodeKeys_fixMissing (G : Graph) :
    (fixMissingAttrs G).nodeKeys = G.nodeKeys := by
  rw [fixMissingAttrs]
  show (G.nodes.map fixEntry).map Prod.fst = G.nodes.map Prod.fst
  rw [List.map_map]
  apply List.map_congr_left
  intro p _
  rcases p with ⟨k, a⟩
  cases a <;> rfl

theorem lookupAttr_map_fixEntry (l : List (String × Option Nat)) (x : String)
    (hx : x ∈ l.map Prod.fst) :
    lookupAttr (l.map fixEntry) x = some ((lookupAttr l x).getD 1) := by
  induction l with
  | nil => cases hx
  | cons p rest ih =>
    rcases p with ⟨k, a⟩
    by_cases hk : k = x
    · subst hk
      cases a <;> simp [lookupAttr, fixEntry]
    · have hx2 : x ∈ rest.map Prod.fst := by
        rcases List.mem_cons.mp hx with h | h
        · exact absurd h.symm hk
        · exact h
      have hfix : (fixEntry (k, a)).1 = k := by cases a <;> rfl
      rw [List.map_cons, lookupAttr, hfix, if_neg hk, lookupAttr, if_neg hk]
      exact ih hx2

theorem attr_fixMissing_of_none (G : Graph) (x : String) (hx : x ∈ G.nodeKeys)
    (ha : G.attr x = none) : (fixMissingAttrs G).attr x = some 1 := by
  show lookupAttr (G.nodes.map fixEntry) x = some 1
  rw [lookupAttr_map_fixEntry G.nodes x hx]
  rw [show lookupAttr G.nodes x = none from ha]
  rfl

/-- C10: after the donor-edge extension, every node of the extended subgraph
lacking the `bipartite` attribute receives the metabolite class `1`; hence a
taxon-class endpoint of a donor edge that lies outside the selected subgraph
node set appears in the extended subgraph classified as a metabolite. -/
theorem donor_taxon_reclassified (G : Graph) (tc tt : Option String)
    (hl : List String) (env : Option (List String)) (u v : String)
    (he : (u, v) ∈ G.edges) (hu : u ∈ env.getD []) (hv : G.attr v = some 0)
    (hnot : v ∉ selectedNodes G tc tt hl) :
    v ∈ (extractorGraph G tc tt hl env).nodeKeys ∧
      (extractorGraph G tc tt hl env).attr v = some 1 := by
  have henv : env.getD [] ≠ [] := List.ne_nil_of_mem hu
  have hdonor : (u, v) ∈ donorEdges G env :=
    (mem_donorEdges G env (u, v)).mpr ⟨he, hu, hv⟩
  have hform : extractorGraph G tc tt hl env =
      fixMissingAttrs ((donorEdges G env).foldl (fun g e => g.addEdge e.1 e.2)
        (inducedSubgraph G (selectedNodes G tc tt hl))) := by
    rw [extractorGraph]
    simp only [henv, if_true, ne_eq, not_false_iff]
  have hsub : v ∉ (inducedSubgraph G (selectedNodes G tc tt hl)).nodeKeys :=
    fun hmem => hnot (inducedSubgraph_keys_subset G _ v hmem)
  have hmem2 : v ∈ ((donorEdges G env).foldl (fun g e => g.addEdge e.1 e.2)
      (inducedSubgraph G (selectedNodes G tc tt hl))).nodeKeys :=
    fold_addEdge_snd_mem (donorEdges G env) _ (u, v) hdonor
  have hattr2 : ((donorEdges G env).foldl (fun g e => g.addEdge e.1 e.2)
      (inducedSubgraph G (selectedNodes G tc tt hl))).attr v = none := by
    rw [fold_addEdge_attr]
    exact attr_eq_none_of_not_mem _ v hsub
  constructor
  · rw [hform, nodeKeys_fixMissing]
    exact hmem2
  · rw [hform]
    exact attr_fixMissing_of_none _ v hmem2 hattr2

/-- C10 witness: in the extractor example, `T` (a taxon of the full graph)
lies outside the selected set around target compound `C`, is pulled in by the
donor edge `E → T`, and ends up classified as a metabolite. -/
theorem donor_taxon_reclassified_wit :
    nT ∈ (extractorGraph gDonor (some nC) none [] (some [nE])).nodeKeys ∧
      (extractorGraph gDonor (some nC) none [] (some [nE])).attr nT = some 1 :=
  donor_taxon_reclassified gDonor (some nC) none [] (some [nE]) nE nT
    (by decide) (by decide) (by decide) (by decide)

/-! ## Claim C9: node-link serialization round-trip -/

theorem nodesFold_append (ns : List (String × Option Nat)) :
    ∀ (G : Graph), (∀ x ∈ ns.map Prod.fst, x ∉ G.nodeKeys) →
      (ns.map Prod.fst).Nodup →
      (ns.foldl (fun g p =>
        match p.2 with
        | some b => g.addNode p.1 b
        | none => g.addBare p.1) G) = ⟨G.nodes ++ ns, G.edges⟩ := by
  induction ns with
  | nil =>
    intro G _ _
    rw [List.foldl_nil, List.append_nil]
  | cons p ns ih =>
    intro G hdis hnd
    obtain ⟨k, a⟩ := p
    rw [List.map_cons, List.nodup_cons] at hnd
    have hk : k ∉ G.nodeKeys := hdis k (by simp)
    have hstep : (match ((k, a) : String × Option Nat).2 with
        | some b => G.addNode ((k, a) : String × Option Nat).1 b
        | none => G.addBare ((k, a) : String × Option Nat).1) =
        ⟨G.nodes ++ [(k, a)], G.edges⟩ := by
      cases a with
      | some b =>
        show G.addNode k b = _
        rw [Graph.addNode, if_neg hk]
      | none =>
        show G.addBare k = _
        rw [Graph.addBare, if_neg hk]
    rw [List.foldl_cons, hstep,
      ih ⟨G.nodes ++ [(k, a)], G.edges⟩
        (by
          intro x hx
          have hxG : x ∉ G.nodeKeys := hdis x (by simp [hx])
          have hxk : x ≠ k := by
            rintro rfl
            exact hnd.1 hx
          show x ∉ (G.nodes ++ [(k, a)]).map Prod.fst
          rw [List.map_append]
          simp only [List.mem_append, List.map_cons, List.map_nil,
            List.mem_singleton, not_or]
          exact ⟨hxG, hxk⟩)
        hnd.2]
    simp

theorem edgesFold (ls : List (String × String)) :
    ∀ (G : Graph), (∀ e ∈ ls, e.1 ∈ G.nodeKeys ∧ e.2 ∈ G.nodeKeys) → ls.Nodup →
      (∀ e ∈ ls, e ∉ G.edges) →
      (ls.foldl (fun g e => g.addEdge e.1 e.2) G) = ⟨G.nodes, G.edges ++ ls⟩ := by
  induction ls with
  | nil =>
    intro G _ _ _
    rw [List.foldl_nil, List.append_nil]
  | cons f ls ih =>
    intro G hval hnd hnew
    obtain ⟨u, v⟩ := f
    rw [List.nodup_cons] at hnd
    have hu : u ∈ G.nodeKeys := (hval (u, v) (by simp)).1
    have hv : v ∈ G.nodeKeys := (hval (u, v) (by simp)).2
    have hne : (u, v) ∉ G.edges := hnew (u, v) (by simp)
    have hb1 : G.addBare u = G := by rw [Graph.addBare, if_pos hu]
    have hb2 : (G.addBare u).addBare v = G := by
      rw [hb1, Graph.addBare, if_pos hv]
    have hstep : G.addEdge u v = ⟨G.nodes, G.edges ++ [(u, v)]⟩ := by
      rw [Graph.addEdge]
      simp only [hb2]
      rw [if_neg hne]
    rw [List.foldl_cons]
    show (ls.foldl (fun g e => g.addEdge e.1 e.2) (G.addEdge u v)) = _
    rw [hstep,
      ih ⟨G.nodes, G.edges ++ [(u, v)]⟩
        (fun e hee => hval e (List.mem_cons_of_mem _ hee))
        hnd.2
        (by
          intro e hee
          have h1 : e ∉ G.edges := hnew e (List.mem_cons_of_mem _ hee)
          have h2 : e ≠ (u, v) := by
            rintro rfl
            exact hnd.1 hee
          show e ∉ G.edges ++ [(u, v)]
          simp [h1, h2])]
    simp

theorem key_unique (l : List (String × Option Nat))
    (hnd : (l.map Prod.fst).Nodup) (p q : String × Option Nat)
    (hp : p ∈ l) (hq : q ∈ l) (hk : p.1 = q.1) : p = q := by
  induction l with
  | nil => cases hp
  | cons a l ih =>
    rw [List.map_cons, List.nodup_cons] at hnd
    rcases List.mem_cons.mp hp with rfl | hp2
    · rcases List.mem_cons.mp hq with rfl | hq2
      · rfl
      · exact absurd (hk ▸ List.mem_map_of_mem Prod.fst hq2) hnd.1
    · rcases List.mem_cons.mp hq with rfl | hq2
      · exact absurd (hk ▸ List.mem_map_of_mem Prod.fst hp2) hnd.1
      · exact ih hnd.2 hp2 hq2

theorem lookupAttr_eq_of_mem_unique (l : List (String × Option Nat)) (x : String)
    (hnd : (l.map Prod.fst).Nodup) (q : String × Option Nat) (hq : q ∈ l)
    (hqx : q.1 = x) : lookupAttr l x = q.2 := by
  induction l with
  | nil => cases hq
  | cons a l ih =>
    by_cases ha : a.1 = x
    · rw [lookupAttr, if_pos ha]
      have : a = q :=
        key_unique (a :: l) hnd a q (List.mem_cons_self a l) hq (ha.trans hqx.symm)
      rw [this]
    · rw [lookupAttr, if_neg ha]
      rw [List.map_cons, List.nodup_cons] at hnd
      have hq2 : q ∈ l := by
        rcases List.mem_cons.mp hq with rfl | h
        · exact absurd hqx ha
        · exact h
      exact ih hnd.2 hq2

theorem lookupAttr_perm (l1 l2 : List (String × Option Nat))
    (hperm : l1.Perm l2) (hnd : (l2.map Prod.fst).Nodup) (x : String) :
    lookupAttr l1 x = lookupAttr l2 x := by
  have hnd1 : (l1.map Prod.fst).Nodup := ((hperm.map Prod.fst).nodup_iff).mpr hnd
  by_cases hx : x ∈ l2.map Prod.fst
  · rcases List.mem_map.mp hx with ⟨q, hq, hqx⟩
    rw [lookupAttr_eq_of_mem_unique l2 x hnd q hq hqx,
      lookupAttr_eq_of_mem_unique l1 x hnd1 q (hperm.mem_iff.mpr hq) hqx]
  · have hx1 : x ∉ l1.map Prod.fst := fun h => hx ((hperm.map Prod.fst).mem_iff.mp h)
    rw [lookupAttr_eq_none_of_not_mem l1 x hx1, lookupAttr_eq_none_of_not_mem l2 x hx]

/-- C9: for a graph with duplicate-free node identifiers and edges whose
endpoints are all present, deserializing any reordering of the node-link
document produced by the serializer reconstructs the same node set, the same
node class for every node, and the same directed edge set. -/
theorem nodeLink_roundTrip (G : Graph) (ns : List (String × Option Nat))
    (ls : List (String × String)) (hnd : (G.nodes.map Prod.fst).Nodup)
    (hed : G.edges.Nodup)
    (hvalid : ∀ e ∈ G.edges, e.1 ∈ G.nodeKeys ∧ e.2 ∈ G.nodeKeys)
    (hp : ns.Perm (nodeLinkData G).docNodes)
    (hq : ls.Perm (nodeLinkData G).docLinks) :
    (∀ x, x ∈ (nodeLinkGraph ⟨ns, ls⟩).nodeKeys ↔ x ∈ G.nodeKeys) ∧
    (∀ x, (nodeLinkGraph ⟨ns, ls⟩).attr x = G.attr x) ∧
    (∀ e : String × String, e ∈ (nodeLinkGraph ⟨ns, ls⟩).edges ↔ e ∈ G.edges) := by
  have hp2 : ns.Perm G.nodes := hp
  have hq2 : ls.Perm G.edges := hq
  have hndn : (ns.map Prod.fst).Nodup := ((hp2.map Prod.fst).nodup_iff).mpr hnd
  have hndl : ls.Nodup := hq2.nodup_iff.mpr hed
  have hkeys : ∀ x, (x ∈ ns.map Prod.fst ↔ x ∈ G.nodeKeys) := fun x =>
    (hp2.map Prod.fst).mem_iff
  have hG0 : (ns.foldl (fun g p =>
      match p.2 with
      | some b => g.addNode p.1 b
      | none => g.addBare p.1) (⟨[], []⟩ : Graph)) = ⟨ns, []⟩ := by
    rw [nodesFold_append ns ⟨[], []⟩ (by intro x _ hx; cases hx) hndn]
    rw [List.nil_append]
  have hfold : nodeLinkGraph ⟨ns, ls⟩ = ⟨ns, ls⟩ := by
    rw [nodeLinkGraph]
    simp only [hG0]
    rw [edgesFold ls ⟨ns, []⟩
      (by
        intro e hee
        have heG : e ∈ G.edges := hq2.mem_iff.mp hee
        have := hvalid e heG
        exact ⟨(hkeys e.1).mpr this.1, (hkeys e.2).mpr this.2⟩)
      hndl
      (by intro e _ hc; cases hc)]
    rw [List.nil_append]
  refine ⟨?_, ?_, ?_⟩
  · intro x
    rw [hfold]
    exact hkeys x
  · intro x
    rw [hfold]
    exact lookupAttr_perm ns G.nodes hp2 hnd x
  · intro e
    rw [hfold]
    exact hq2.mem_iff

/-- C9 witness: the graph `A → X` serialized and re-read with its node list
reversed reconstructs the same node set, classes and edges. -/
theorem nodeLink_roundTrip_wit :
    (∀ x, x ∈ (nodeLinkGraph ⟨[(nX, some 1), (nA, some 0)], [(nA, nX)]⟩).nodeKeys ↔
      x ∈ gAX.nodeKeys) ∧
    (∀ x, (nodeLinkGraph ⟨[(nX, some 1), (nA, some 0)], [(nA, nX)]⟩).attr x =
      gAX.attr x) ∧
    (∀ e : String × String,
      e ∈ (nodeLinkGraph ⟨[(nX, some 1), (nA, some 0)], [(nA, nX)]⟩).edges ↔
        e ∈ gAX.edges) :=
  nodeLink_roundTrip gAX [(nX, some 1), (nA, some 0)] [(nA, nX)] (by decide)
    (by decide) (by decide) (by decide) (by decide)

/-! ## Claim C4: the top-10% percentile cutoff -/

theorem filter_take_drop (p : InteractionRecord → Bool) (l : List InteractionRecord)
    (n : Nat) : l.filter p = (l.take n).filter p ++ (l.drop n).filter p := by
  conv_lhs => rw [← List.take_append_drop n l]
  rw [List.filter_append]

/-- In a descending-sorted list, at least `idx` records reach the flux stored
at rank `idx - 1`, with equality exactly when no later record ties with that
flux value. -/
theorem sortedFilterCount (s : List InteractionRecord) (idx : Nat)
    (hsorted : List.Pairwise fluxGe s) (h1 : 1 ≤ idx) (hlt : idx - 1 < s.length) :
    idx ≤ (s.filter (fun x => (s.getD (idx - 1) defaultRecord).flux ≤ x.flux)).length ∧
    ((∀ j (hj : j < s.length), idx ≤ j →
        (s.get ⟨j, hj⟩).flux ≠ (s.getD (idx - 1) defaultRecord).flux) →
      (s.filter (fun x => (s.getD (idx - 1) defaultRecord).flux ≤ x.flux)).length = idx) := by
  have hget := List.pairwise_iff_get.mp hsorted
  have hidx_le : idx ≤ s.length := by omega
  have hmg : (s.getD (idx - 1) defaultRecord).flux = (s.get ⟨idx - 1, hlt⟩).flux := by
    rw [List.getD_eq_getElem?_getD, List.getElem?_eq_getElem hlt]
    rfl
  have htakeAll : ∀ x ∈ s.take idx,
      (s.getD (idx - 1) defaultRecord).flux ≤ x.flux := by
    intro x hx
    rcases List.mem_iff_get.mp hx with ⟨i, hi⟩
    obtain ⟨k, hk⟩ := i
    have hk2 : k < idx ⊓ s.length := by
      rw [← List.length_take]
      exact hk
    have hi2 : k < idx := lt_of_lt_of_le hk2 (min_le_left _ _)
    have hi3 : k < s.length := lt_of_lt_of_le hk2 (min_le_right _ _)
    have hxeq : x = s.get ⟨k, hi3⟩ := by
      rw [← hi]
      rw [List.get_eq_getElem, List.get_eq_getElem]
      exact List.getElem_take s
    rw [hxeq, hmg]
    rcases Nat.lt_or_ge k (idx - 1) with hcmp | hcmp
    · exact hget ⟨k, hi3⟩ ⟨idx - 1, hlt⟩ hcmp
    · have hke : k = idx - 1 := by omega
      subst hke
      exact le_refl _
  have hfilter_take : (s.take idx).filter
      (fun x => (s.getD (idx - 1) defaultRecord).flux ≤ x.flux) = s.take idx :=
    List.filter_eq_self.mpr (fun a ha => decide_eq_true (htakeAll a ha))
  have hlen_take : (s.take idx).length = idx := by
    rw [List.length_take]
    exact min_eq_left hidx_le
  have hsplit := filter_take_drop
    (fun x => decide ((s.getD (idx - 1) defaultRecord).flux ≤ x.flux)) s idx
  constructor
  · rw [hsplit, List.length_append, hfilter_take, hlen_take]
    omega
  · intro hties
    have hdropAll : ∀ x ∈ s.drop idx,
        ¬ ((s.getD (idx - 1) defaultRecord).flux ≤ x.flux) := by
      intro x hx
      rcases List.mem_iff_get.mp hx with ⟨i, hi⟩
      obtain ⟨k, hk⟩ := i
      have hk2 : k < s.length - idx := by
        rw [← List.length_drop]
        exact hk
      have hi2 : idx + k < s.length := by omega
      have hxeq : x = s.get ⟨idx + k, hi2⟩ := by
        rw [← hi]
        rw [List.get_eq_getElem, List.get_eq_getElem]
        exact List.getElem_drop s
      have hle : (s.get ⟨idx + k, hi2⟩).flux ≤
          (s.getD (idx - 1) defaultRecord).flux := by
        rw [hmg]
        exact hget ⟨idx - 1, hlt⟩ ⟨idx + k, hi2⟩ (by rw [Fin.mk_lt_mk]; omega)
      have hne2 : (s.get ⟨idx + k, hi2⟩).flux ≠
          (s.getD (idx - 1) defaultRecord).flux :=
        hties (idx + k) hi2 (by omega)
      rw [hxeq]
      intro hge
      exact hne2 (le_antisymm hle hge)
    have hfilter_drop : (s.drop idx).filter
        (fun x => (s.getD (idx - 1) defaultRecord).flux ≤ x.flux) = [] :=
      List.filter_eq_nil_iff.mpr (fun a ha => by simpa using hdropAll a ha)
    rw [hsplit, List.length_append, hfilter_take, hlen_take, hfilter_drop]
    simp

/-- C4 (amended): for every nonempty interaction sequence filtered with the
keyword `top10`, the cutoff index is `max(1, floor(0.1 × N))`, the flux at
that rank of the descending-sorted list is an inclusive floor, exactly the
records with flux ≥ that floor survive, and the surviving count is at least
the cutoff index, with equality unless a record beyond the index ties at the
floor value; on the empty sequence the filter instead fails with an index
error. -/
theorem top10_cutoff_charac (recs : List InteractionRecord) (hne : recs ≠ []) :
    top10Idx recs.length = max 1 (Nat.floor ((recs.length : ℚ) * (1 / 10))) ∧
    applyFluxCutoff (some (.pct top10Lit)) (sortByFluxDesc recs) =
      .ok ((sortByFluxDesc recs).filter (fun x => top10Floor recs ≤ x.flux)) ∧
    top10Idx recs.length ≤
      ((sortByFluxDesc recs).filter (fun x => top10Floor recs ≤ x.flux)).length ∧
    ((∀ j (hj : j < (sortByFluxDesc recs).length), top10Idx recs.length ≤ j →
        ((sortByFluxDesc recs).get ⟨j, hj⟩).flux ≠ top10Floor recs) →
      ((sortByFluxDesc recs).filter (fun x => top10Floor recs ≤ x.flux)).length =
        top10Idx recs.length) := by
  have hlen : (sortByFluxDesc recs).length = recs.length :=
    List.length_insertionSort fluxGe recs
  have hL1 : 1 ≤ recs.length :=
    Nat.one_le_iff_ne_zero.mpr (fun h0 => hne (List.length_eq_zero.mp h0))
  have hidx1 : 1 ≤ top10Idx recs.length := le_max_left 1 _
  have hidx_le : top10Idx recs.length ≤ recs.length :=
    max_le hL1 (Nat.div_le_self _ _)
  have hlt : top10Idx recs.length - 1 < (sortByFluxDesc recs).length := by
    rw [hlen]
    omega
  have hIdx2 : top10Idx (sortByFluxDesc recs).length = top10Idx recs.length := by
    rw [hlen]
  have hlt2 : top10Idx (sortByFluxDesc recs).length - 1 <
      (sortByFluxDesc recs).length := by
    rw [hIdx2]
    exact hlt
  have hm : (sortByFluxDesc recs).get? (top10Idx (sortByFluxDesc recs).length - 1) =
      some ((sortByFluxDesc recs).getD (top10Idx (sortByFluxDesc recs).length - 1)
        defaultRecord) := by
    rw [List.getD_eq_getElem?_getD, List.getElem?_eq_getElem hlt2,
      List.get?_eq_get hlt2]
    rfl
  have hfloor : recs.length / 10 = Nat.floor ((recs.length : ℚ) * (1 / 10)) := by
    rw [mul_one_div]
    rw [show ((10 : ℚ)) = ((10 : ℕ) : ℚ) from by norm_num]
    rw [Nat.floor_div_nat, Nat.floor_natCast]
  have hcount := sortedFilterCount (sortByFluxDesc recs) (top10Idx recs.length)
    (List.sorted_insertionSort fluxGe recs) hidx1 hlt
  refine ⟨?_, ?_, hcount.1, hcount.2⟩
  · rw [top10Idx, hfloor]
  · simp only [applyFluxCutoff]
    rw [if_pos (Or.inr trivial)]
    show (match (sortByFluxDesc recs).get? (top10Idx (sortByFluxDesc recs).length - 1) with
      | none => (Except.error CutoffError.emptyIndex :
          Except CutoffError (List InteractionRecord))
      | some r => Except.ok ((sortByFluxDesc recs).filter (fun x => r.flux ≤ x.flux))) = _
    rw [hm]
    show Except.ok ((sortByFluxDesc recs).filter
      (fun x => ((sortByFluxDesc recs).getD (top10Idx (sortByFluxDesc recs).length - 1)
        defaultRecord).flux ≤ x.flux)) = _
    rw [hIdx2]
    rfl

/-- C4 witness: the three example records under the `top10` cutoff. -/
theorem top10_cutoff_charac_wit :
    top10Idx exRecords.length =
      max 1 (Nat.floor ((exRecords.length : ℚ) * (1 / 10))) ∧
    applyFluxCutoff (some (.pct top10Lit)) (sortByFluxDesc exRecords) =
      .ok ((sortByFluxDesc exRecords).filter (fun x => top10Floor exRecords ≤ x.flux)) ∧
    top10Idx exRecords.length ≤
      ((sortByFluxDesc exRecords).filter (fun x => top10Floor exRecords ≤ x.flux)).length ∧
    ((∀ j (hj : j < (sortByFluxDesc exRecords).length), top10Idx exRecords.length ≤ j →
        ((sortByFluxDesc exRecords).get ⟨j, hj⟩).flux ≠ top10Floor exRecords) →
      ((sortByFluxDesc exRecords).filter
        (fun x => top10Floor exRecords ≤ x.flux)).length = top10Idx exRecords.length) :=
  top10_cutoff_charac exRecords (by decide)

/-- C4 counterexample: on the empty interaction sequence the percentile
filter does not produce the claimed `max(1, floor(0.1 × 0)) = 1` surviving
records – it fails with Python's `IndexError` when reading
`all_interactions[cutoff_idx - 1]`. -/
theorem top10_empty_errors :
    applyFluxCutoff (some (.pct top10Lit)) (sortByFluxDesc []) =
      .error .emptyIndex := by decide
